import Mathlib

/-!
Verification development for the tiatoolbox WSI-registration core and the
padding utility `normalise_padding_size` from `tiatoolbox/utils/image.py`.

The registration module itself (`tiatoolbox/tools/registration/wsi_registration.py`)
is not part of the sources at hand; only its tests are.  The registration
definitions below are therefore modelled from the specification document
(sections 4.1-4.6), as indicated in each doc comment.  The padding utility is
embedded from its actual source.
-/

set_option maxRecDepth 8000

/-- Error taxonomy of the registration core (spec section 7). -/
inductive RegError where
  | invalidImageFormat
  | shapeMismatch
  | invalidParameter
  | missingForeground
  | featureStageMismatch
  | insufficientCorrespondences
  deriving DecidableEq, Repr

/-- A 3x3 homogeneous transform matrix over the reals (spec section 3,
"Transform"). -/
structure Mat3 where
  m00 : ℝ
  m01 : ℝ
  m02 : ℝ
  m10 : ℝ
  m11 : ℝ
  m12 : ℝ
  m20 : ℝ
  m21 : ℝ
  m22 : ℝ

/-- Matrix product of two 3x3 matrices. -/
def Mat3.mul (A B : Mat3) : Mat3 where
  m00 := A.m00 * B.m00 + A.m01 * B.m10 + A.m02 * B.m20
  m01 := A.m00 * B.m01 + A.m01 * B.m11 + A.m02 * B.m21
  m02 := A.m00 * B.m02 + A.m01 * B.m12 + A.m02 * B.m22
  m10 := A.m10 * B.m00 + A.m11 * B.m10 + A.m12 * B.m20
  m11 := A.m10 * B.m01 + A.m11 * B.m11 + A.m12 * B.m21
  m12 := A.m10 * B.m02 + A.m11 * B.m12 + A.m12 * B.m22
  m20 := A.m20 * B.m00 + A.m21 * B.m10 + A.m22 * B.m20
  m21 := A.m20 * B.m01 + A.m21 * B.m11 + A.m22 * B.m21
  m22 := A.m20 * B.m02 + A.m21 * B.m12 + A.m22 * B.m22

/-- The identity transform. -/
noncomputable def Mat3.id : Mat3 :=
  ⟨1, 0, 0, 0, 1, 0, 0, 0, 1⟩

/-- The bottom row of a 3x3 transform. -/
def Mat3.bottomRow (A : Mat3) : ℝ × ℝ × ℝ :=
  (A.m20, A.m21, A.m22)

/-- Products of transforms with bottom row (0, 0, 1) again have bottom
row (0, 0, 1). -/
theorem Mat3.bottomRow_mul (A B : Mat3)
    (hA : A.bottomRow = (0, 0, 1)) (hB : B.bottomRow = (0, 0, 1)) :
    (A.mul B).bottomRow = (0, 0, 1) := by
  simp only [Mat3.bottomRow, Prod.mk.injEq] at hA hB ⊢
  obtain ⟨hA0, hA1, hA2⟩ := hA
  obtain ⟨hB0, hB1, hB2⟩ := hB
  refine ⟨?_, ?_, ?_⟩ <;> simp [Mat3.mul, hA0, hA1, hA2, hB0, hB1, hB2]

/-- A grayscale image: a numpy-style shape together with flat pixel data
(spec section 3, "Image").  Pixel data never influences the prealignment
search, which works on masks only (spec section 4.2). -/
structure GrayImg where
  shape : List ℕ
  data : List ℕ
  deriving DecidableEq, Repr

/-- A binary mask: a numpy-style shape together with the set of foreground
pixel coordinates (spec section 3, "Mask"). -/
structure BinMask where
  shape : List ℕ
  fg : Finset (ℤ × ℤ)
  deriving DecidableEq

/-- Modelled from the spec: the Dice coefficient 2|A∩B|/(|A|+|B|) of two
binary masks, given as their foreground point sets (spec sections 3 and 4.2;
the Dice computation itself lives in the registration module, which is not
among the sources at hand). -/
def diceCoeff (A B : Finset (ℤ × ℤ)) : ℚ :=
  2 * ((A ∩ B).card : ℚ) / ((A.card : ℚ) + (B.card : ℚ))

/-- Modelled from the spec: the centroid (first moment of the foreground
pixels) of a mask, spec section 4.2. -/
def maskCentroid (M : Finset (ℤ × ℤ)) : ℚ × ℚ :=
  (Finset.sum M (fun p => (p.1 : ℚ)) / (M.card : ℚ),
   Finset.sum M (fun p => (p.2 : ℚ)) / (M.card : ℚ))

/-- A translation transform by a rational offset. -/
noncomputable def transMat (t : ℚ × ℚ) : Mat3 :=
  ⟨1, 0, (t.1 : ℝ), 0, 1, (t.2 : ℝ), 0, 0, 1⟩

/-- Modelled from the spec: rotation by `θ` degrees about a centre `c`
(spec section 4.2 rotates the translated moving mask about the shared
centroid).  The trigonometric functions are the exact real ones. -/
noncomputable def rotAbout (c : ℚ × ℚ) (θ : ℚ) : Mat3 :=
  let a : ℝ := (θ : ℝ) * Real.pi / 180
  ⟨Real.cos a, -Real.sin a, (c.1 : ℝ) - Real.cos a * (c.1 : ℝ) + Real.sin a * (c.2 : ℝ),
   Real.sin a, Real.cos a, (c.2 : ℝ) - Real.sin a * (c.1 : ℝ) - Real.cos a * (c.2 : ℝ),
   0, 0, 1⟩

/-- Apply a homogeneous transform to an integer pixel coordinate. -/
noncomputable def applyMat (T : Mat3) (p : ℤ × ℤ) : ℝ × ℝ :=
  (T.m00 * (p.1 : ℝ) + T.m01 * (p.2 : ℝ) + T.m02,
   T.m10 * (p.1 : ℝ) + T.m11 * (p.2 : ℝ) + T.m12)

/-- Modelled from the spec: warping a binary mask by a transform, with
nearest-integer resampling of each foreground point (the registration module
warps masks with an image library; the sources at hand do not contain it). -/
noncomputable def warpMask (T : Mat3) (M : Finset (ℤ × ℤ)) : Finset (ℤ × ℤ) :=
  M.image (fun p => (round (applyMat T p).1, round (applyMat T p).2))

/-- Modelled from the spec: the candidate angle grid 0, s, 2s, ... < 360 of
the prealignment rotation search (spec section 4.2). -/
def angleGrid (s : ℚ) : List ℚ :=
  (List.range (Nat.ceil ((360 : ℚ) / s))).map (fun k => (k : ℚ) * s)

/-- Modelled from the spec: the candidate transform for one grid angle —
the centroid-matching translation composed with the rotation about the fixed
centroid (spec section 4.2). -/
noncomputable def candTransform (cf t : ℚ × ℚ) (θ : ℚ) : Mat3 :=
  (rotAbout cf θ).mul (transMat t)

/-- Modelled from the spec: the scored candidate list of the prealignment
rotation search; each grid angle is paired with the Dice score of the warped
moving mask against the fixed mask (spec section 4.2). -/
noncomputable def scoredList (fmask mmask : BinMask) (s : ℚ) : List (ℚ × Mat3) :=
  let cf := maskCentroid fmask.fg
  let cm := maskCentroid mmask.fg
  let t : ℚ × ℚ := (cf.1 - cm.1, cf.2 - cm.2)
  (angleGrid s).map (fun θ =>
    let T := candTransform cf t θ
    (diceCoeff fmask.fg (warpMask T mmask.fg), T))

/-- First-maximum selection over a scored list (the model of `np.argmax`:
ties keep the earliest candidate).  The empty list yields the identity. -/
noncomputable def bestOf : List (ℚ × Mat3) → ℚ × Mat3
  | [] => (0, Mat3.id)
  | x :: xs => xs.foldl (fun b y => if b.1 < y.1 then y else b) x

/-- Modelled from the spec: the retained (best Dice score, transform) pair of
the prealignment rotation search (spec section 4.2). -/
noncomputable def prealignSearch (fmask mmask : BinMask) (s : ℚ) : ℚ × Mat3 :=
  bestOf (scoredList fmask mmask s)

/-- Modelled from the spec: `prealignment` (spec section 4.2).  The
registration module is not among the sources at hand; its input checks,
parameter ranges, rotation search and warning behaviour follow the spec
text.  The boolean in the result records whether the non-fatal dice-overlap
warning was emitted. -/
noncomputable def prealignment (fixed_img moving_img : GrayImg)
    (fixed_mask moving_mask : BinMask) (dice_overlap rotation_step : ℚ) :
    Except RegError (Mat3 × Bool) :=
  if fixed_img.shape.length ≠ 2 ∨ moving_img.shape.length ≠ 2 then
    .error .invalidImageFormat
  else if fixed_mask.shape ≠ fixed_img.shape ∨ moving_mask.shape ≠ moving_img.shape then
    .error .shapeMismatch
  else if ¬ (0 < dice_overlap ∧ dice_overlap ≤ 1) then
    .error .invalidParameter
  else if ¬ (10 ≤ rotation_step ∧ rotation_step ≤ 20) then
    .error .invalidParameter
  else if fixed_mask.fg = ∅ ∨ moving_mask.fg = ∅ then
    .error .missingForeground
  else
    let best := prealignSearch fixed_mask moving_mask rotation_step
    .ok (best.2, decide (best.1 < dice_overlap))

/-- A numpy shape is an acceptable grayscale shape when it is 2-dimensional
or 3-dimensional with a single trailing channel (spec section 4.1: not
grayscale means "more than one trailing channel"; the tests accept
`(n, m)` and `(n, m, 1)` and reject `(n, m, 3)`). -/
def grayOk (s : List ℕ) : Prop :=
  s.length = 2 ∨ (s.length = 3 ∧ s.getD 2 0 = 1)

instance (s : List ℕ) : Decidable (grayOk s) := by
  unfold grayOk; infer_instance

/-- The number of pixels of intensity at most `v` (the unnormalised
cumulative histogram, spec section 4.1). -/
def cumCount (l : List ℕ) (v : ℕ) : ℕ :=
  l.countP (fun x => decide (x ≤ v))

/-- Modelled from the spec: the cumulative distribution of an intensity list
at intensity `v` (spec section 4.1 builds cumulative distributions of both
images). -/
def cdfAt (l : List ℕ) (v : ℕ) : ℚ :=
  (cumCount l v : ℚ) / (l.length : ℚ)

/-- First-minimum selection: fold a candidate list keeping the earliest
candidate of minimal value (the model of `np.argmin`). -/
def pickMin {α : Type} [LinearOrder α] (f : ℕ → α) : ℕ → List ℕ → ℕ
  | best, [] => best
  | best, j :: rest => pickMin f (if f j < f best then j else best) rest

/-- Modelled from the spec: one entry of the histogram-matching lookup table;
intensity `i` of the first image is mapped to the intensity of the second
image with the nearest matching cumulative probability, the lowest such
intensity on ties (spec section 4.1). -/
def tableEntry (a b : List ℕ) (i : ℕ) : ℕ :=
  pickMin (fun j => |cdfAt b j - cdfAt a i|) 0 (List.range 256)

/-- Modelled from the spec: one entry of the moving-average smoothing of a
lookup table with window width `w` (spec section 4.1 optionally smooths the
lookup with a moving average of the given width). -/
def smoothEntry (w : ℕ) (t : ℕ → ℕ) (i : ℕ) : ℕ :=
  let lo := i - w / 2
  let hi := min 255 (i + w / 2)
  ((List.range (hi + 1 - lo)).map (fun d => t (lo + d))).sum / (hi + 1 - lo)

/-- Optional smoothing of a lookup table: `none` leaves the table untouched
(spec section 4.1, the smoothing kernel is optional). -/
def smoothTable : Option ℕ → (ℕ → ℕ) → (ℕ → ℕ)
  | none, t => t
  | some w, t => smoothEntry w t

/-- Modelled from the spec: `match_histograms` (spec section 4.1).  The
registration module is not among the sources at hand; following the spec, it
checks that both images are grayscale, builds the lookup table from the two
cumulative distributions, optionally smooths it, applies it to the first
image and returns the result together with the unmodified second image. -/
def match_histograms (image_a image_b : GrayImg) (kernel : Option ℕ) :
    Except RegError (GrayImg × GrayImg) :=
  if grayOk image_a.shape ∧ grayOk image_b.shape then
    let table := smoothTable kernel (tableEntry image_a.data image_b.data)
    .ok (⟨image_a.shape, image_a.data.map table⟩, image_b)
  else
    .error .invalidImageFormat

/-- An RGB image: a numpy-style shape together with flat pixel data
(spec section 4.3). -/
structure RgbImg where
  shape : List ℕ
  data : List ℚ
  deriving DecidableEq, Repr

/-- One multi-channel feature map: rows of columns of channel vectors. -/
def FeatMap : Type := List (List (List ℚ))

/-- One stage of a feature pyramid: its downsampling factor and the feature
maps of the fixed and the moving image (spec sections 3 and 4.3: each stage
holds a pair of per-image activation maps at a known downsampling factor). -/
structure PyrStage where
  factor : ℕ
  fixedF : FeatMap
  movingF : FeatMap

/-- A feature pyramid: a list of stages, coarse to fine (spec section 3). -/
def Pyramid : Type := List PyrStage

/-- Modelled from the spec: `extract_features` (spec section 4.3).  The
pretrained network is an externally supplied, immutable resource, so it is a
parameter `net`; the function checks the input shapes and runs one forward
pass on the stacked pair.  The registration module is not among the sources
at hand; the shape checks follow the spec and the tests. -/
def extract_features (net : RgbImg × RgbImg → Pyramid) (fixed moving : RgbImg) :
    Except RegError Pyramid :=
  if fixed.shape.length ≠ 3 ∨ moving.shape.length ≠ 3 then
    .error .invalidImageFormat
  else if fixed.shape.getD 2 0 ≠ 3 ∨ moving.shape.getD 2 0 ≠ 3 then
    .error .invalidImageFormat
  else if fixed.shape ≠ moving.shape then
    .error .invalidImageFormat
  else
    .ok (net (fixed, moving))

/-- Dot product of two rational vectors (truncating at the shorter one). -/
def dotQ : List ℚ → List ℚ → ℚ
  | x :: xs, y :: ys => x * y + dotQ xs ys
  | _, _ => 0

/-- Modelled from the spec: cosine similarity of two feature vectors (spec
section 4.4 scores similarity by normalized cross-correlation / cosine
similarity). -/
noncomputable def cosSim (u v : List ℚ) : ℝ :=
  ((dotQ u v : ℚ) : ℝ) / (Real.sqrt ((dotQ u u : ℚ) : ℝ) * Real.sqrt ((dotQ v v : ℚ) : ℝ))

/-- The feature vector stored at a grid location of a feature map. -/
def featVec (fm : FeatMap) (loc : ℕ × ℕ) : List ℚ :=
  (fm.getD loc.1 []).getD loc.2 []

/-- Concatenation of a list of lists. -/
def concatLists : List (List α) → List α
  | [] => []
  | l :: ls => l ++ concatLists ls

/-- All spatial grid locations of a feature map. -/
def gridLocs (fm : FeatMap) : List (ℕ × ℕ) :=
  concatLists ((List.range fm.length).map (fun i =>
    (List.range (fm.getD i []).length).map (fun j => (i, j))))

/-- Modelled from the spec: the confidence margin of the feature matcher.
The spec fixes only its existence (section 4.4, "a confidence margin"), not
its numeric value; the value here is an arbitrary representative. -/
noncomputable def confidenceMargin : ℝ := 1 / 2

/-- The local search radius of the coarse-to-fine refinement.  The spec fixes
only that the neighbourhood is small (section 4.4), not its size. -/
def searchRadius : ℕ := 2

/-- Best-scoring location of a moving feature map against a fixed feature
vector, searching a given candidate list and keeping the earliest maximum. -/
noncomputable def bestLocOn (mov : FeatMap) (u : List ℚ) (cands : List (ℕ × ℕ))
    (start : ℕ × ℕ) : (ℕ × ℕ) × ℝ :=
  cands.foldl
    (fun best loc =>
      if best.2 < cosSim u (featVec mov loc) then (loc, cosSim u (featVec mov loc)) else best)
    (start, cosSim u (featVec mov start))

/-- Modelled from the spec: the global all-to-all matching at the coarsest
stage; every fixed location is matched against all moving locations and kept
when its best score exceeds the confidence margin (spec section 4.4 step 1). -/
noncomputable def coarseMatches (s : PyrStage) : List ((ℕ × ℕ) × (ℕ × ℕ) × ℝ) :=
  (gridLocs s.fixedF).foldr
    (fun loc acc =>
      let u := featVec s.fixedF loc
      let b := bestLocOn s.movingF u (gridLocs s.movingF) (0, 0)
      if confidenceMargin < b.2 then (loc, b.1, b.2) :: acc else acc)
    []

/-- The square window of candidate locations around a projected location. -/
def windowAround (c : ℕ × ℕ) (r : ℕ) : List (ℕ × ℕ) :=
  concatLists ((List.range (2 * r + 1)).map (fun di =>
    (List.range (2 * r + 1)).map (fun dj => (c.1 - r + di, c.2 - r + dj))))

/-- Modelled from the spec: refinement of one surviving correspondence into
the next finer stage — scale both coordinates by the stage ratio, re-score
only a small neighbourhood around the projected moving location, and drop the
correspondence when the confidence test fails (spec section 4.4 steps 2-3). -/
noncomputable def refineOne (s : PyrStage) (ratio : ℕ)
    (m : (ℕ × ℕ) × (ℕ × ℕ) × ℝ) : Option ((ℕ × ℕ) × (ℕ × ℕ) × ℝ) :=
  let fLoc : ℕ × ℕ := (m.1.1 * ratio, m.1.2 * ratio)
  let proj : ℕ × ℕ := (m.2.1.1 * ratio, m.2.1.2 * ratio)
  let u := featVec s.fixedF fLoc
  let b := bestLocOn s.movingF u (windowAround proj searchRadius) proj
  if confidenceMargin < b.2 then some (fLoc, b.1, b.2) else none

/-- Refinement of all surviving correspondences from the previous stage. -/
noncomputable def refineStage (prev s : PyrStage)
    (ms : List ((ℕ × ℕ) × (ℕ × ℕ) × ℝ)) : List ((ℕ × ℕ) × (ℕ × ℕ) × ℝ) :=
  ms.filterMap (refineOne s (prev.factor / s.factor))

/-- Modelled from the spec: the full coarse-to-fine correspondence search on
a three-stage pyramid, with the final matched locations scaled back to
original pixel coordinates (spec section 4.4). -/
noncomputable def matchStages (s0 s1 s2 : PyrStage) :
    List (ℚ × ℚ) × List (ℚ × ℚ) × List ℝ :=
  let m2 := refineStage s1 s2 (refineStage s0 s1 (coarseMatches s0))
  (m2.map (fun m => (((m.1.2 * s2.factor : ℕ) : ℚ), ((m.1.1 * s2.factor : ℕ) : ℚ))),
   m2.map (fun m => (((m.2.1.2 * s2.factor : ℕ) : ℚ), ((m.2.1.1 * s2.factor : ℕ) : ℚ))),
   m2.map (fun m => m.2.2))

/-- The default stage used to destructure a pyramid of verified length 3. -/
def defaultStage : PyrStage := ⟨1, [], []⟩

/-- Modelled from the spec: `feature_mapping` (spec section 4.4).  The
registration module is not among the sources at hand; following the spec and
the tests, a pyramid whose stage count differs from 3 is rejected, otherwise
the coarse-to-fine correspondence search runs on the three stages. -/
noncomputable def feature_mapping (p : Pyramid) :
    Except RegError (List (ℚ × ℚ) × List (ℚ × ℚ) × List ℝ) :=
  if p.length = 3 then
    .ok (matchStages (p.getD 0 defaultStage) (p.getD 1 defaultStage) (p.getD 2 defaultStage))
  else
    .error .featureStageMismatch

/-- The signed area cross product deciding collinearity of three points. -/
def cross2 (p q r : ℚ × ℚ) : ℚ :=
  (q.1 - p.1) * (r.2 - p.2) - (q.2 - p.2) * (r.1 - p.1)

/-- Whether a point list contains three non-collinear points (three points
whose cross product is nonzero; repeated points are automatically
collinear). -/
def hasThreeNonCollinear (l : List (ℚ × ℚ)) : Bool :=
  l.any (fun p => l.any (fun q => l.any (fun r => decide (cross2 p q r ≠ 0))))

/-- The determinant of a 3x3 rational matrix given row by row. -/
def det3 (a b c d e f g h i : ℚ) : ℚ :=
  a * (e * i - f * h) - b * (d * i - f * g) + c * (d * h - e * g)

/-- Cramer's rule for a 3x3 rational system with rows (a b c), (d e f),
(g h i), right-hand side (p, q, r) and nonzero determinant `dt`. -/
def cramer3 (a b c d e f g h i p q r dt : ℚ) : ℚ × ℚ × ℚ :=
  (det3 p b c q e f r h i / dt,
   det3 a p c d q f g r i / dt,
   det3 a b p d e q g h r / dt)

/-- Modelled from the spec: the least-squares affine fit over matched pairs
(fixed, moving), mapping moving points onto fixed points (spec section 4.5
minimizes the squared residual between mapped moving points and fixed
points).  The two output rows are obtained from the normal equations by
Cramer's rule; a degenerate system falls back to the identity rows (the
non-collinearity check makes this case unreachable for accepted inputs). -/
def fitAffine (pairs : List ((ℚ × ℚ) × (ℚ × ℚ))) : (ℚ × ℚ × ℚ) × (ℚ × ℚ × ℚ) :=
  let sxx := (pairs.map (fun pr => pr.2.1 * pr.2.1)).sum
  let sxy := (pairs.map (fun pr => pr.2.1 * pr.2.2)).sum
  let syy := (pairs.map (fun pr => pr.2.2 * pr.2.2)).sum
  let sx := (pairs.map (fun pr => pr.2.1)).sum
  let sy := (pairs.map (fun pr => pr.2.2)).sum
  let n : ℚ := (pairs.length : ℚ)
  let d := det3 sxx sxy sx sxy syy sy sx sy n
  if d = 0 then ((1, 0, 0), (0, 1, 0))
  else
    let bu := (pairs.map (fun pr => pr.1.1 * pr.2.1)).sum
    let bv := (pairs.map (fun pr => pr.1.1 * pr.2.2)).sum
    let bw := (pairs.map (fun pr => pr.1.1)).sum
    let cu := (pairs.map (fun pr => pr.1.2 * pr.2.1)).sum
    let cv := (pairs.map (fun pr => pr.1.2 * pr.2.2)).sum
    let cw := (pairs.map (fun pr => pr.1.2)).sum
    (cramer3 sxx sxy sx sxy syy sy sx sy n bu bv bw d,
     cramer3 sxx sxy sx sxy syy sy sx sy n cu cv cw d)

/-- The 3x3 transform built from two affine rows, with the bottom row pinned
to (0, 0, 1) (spec section 4.5: output is a 3x3 transform with bottom row
(0, 0, 1)). -/
noncomputable def affineToMat (rows : (ℚ × ℚ × ℚ) × (ℚ × ℚ × ℚ)) : Mat3 :=
  ⟨(rows.1.1 : ℝ), (rows.1.2.1 : ℝ), (rows.1.2.2 : ℝ),
   (rows.2.1 : ℝ), (rows.2.2.1 : ℝ), (rows.2.2.2 : ℝ),
   0, 0, 1⟩

/-- Modelled from the spec: `estimate_affine_transform` (spec section 4.5).
The registration module is not among the sources at hand; following the
spec, the estimator truncates both sequences to their common length (pairing
index-correspondent points), rejects inputs that do not contain three
non-collinear moving points with `InsufficientCorrespondences`, and
otherwise returns the least-squares fit as a 3x3 transform. -/
noncomputable def estimate_affine_transform (fixed_points moving_points : List (ℚ × ℚ)) :
    Except RegError Mat3 :=
  let pairs := fixed_points.zip moving_points
  if hasThreeNonCollinear (pairs.map Prod.snd) then
    .ok (affineToMat (fitAffine pairs))
  else
    .error .insufficientCorrespondences

/-- Modelled from the spec: the Registrar's final transform — the refinement
transform composed with the coarse transform, as a matrix product in
warped-space order (spec section 4.6). -/
noncomputable def final_transform (refine coarse : Mat3) : Mat3 :=
  refine.mul coarse

/-- A numpy value as passed to `normalise_padding_size`
(`tiatoolbox/utils/image.py`): its shape and its flattened integer data,
coherent with each other (`np.size` is the product of the shape; a scalar
has shape `[]` and size 1). -/
structure NpPadding where
  shape : List ℕ
  data : List ℤ
  coh : data.length = shape.prod

/-- `np.repeat` on a flattened array: every element is repeated `n` times in
place. -/
def np_repeat : List ℤ → ℕ → List ℤ
  | [], _ => []
  | a :: as_, n => List.replicate n a ++ np_repeat as_ n

/-- `np.tile` on a flattened array: the whole array is concatenated `n`
times. -/
def np_tile (xs : List ℤ) : ℕ → List ℤ
  | 0 => []
  | n + 1 => xs ++ np_tile xs n

theorem np_repeat_length (xs : List ℤ) (n : ℕ) :
    (np_repeat xs n).length = n * xs.length := by
  induction xs with
  | nil => simp [np_repeat]
  | cons a as_ ih => simp [np_repeat, ih]; ring

theorem np_tile_length (xs : List ℤ) (n : ℕ) :
    (np_tile xs n).length = n * xs.length := by
  induction n with
  | zero => simp [np_tile]
  | succ n ih => simp [np_tile, ih]; ring

/-- A 1-dimensional numpy array built from a flat list. -/
def vec1 (xs : List ℤ) : NpPadding :=
  ⟨[xs.length], xs, by simp⟩

/-- Embedding of `normalise_padding_size` from `tiatoolbox/utils/image.py`
(lines 42-77): reject inputs with more than one dimension, then inputs of
size 3; repeat a size-1 input four times, tile a size-2 input twice, and
return anything else converted to an array, unchanged. -/
def normalise_padding_size (padding : NpPadding) : Except String NpPadding :=
  if 1 < padding.shape.length then
    .error "Invalid input padding shape. Must be scalar or 1 dimentional."
  else if padding.shape.prod = 3 then
    .error "Padding has invalid size 3. Valid sizes are 1, 2, or 4."
  else if h1 : padding.shape.prod = 1 then
    .ok ⟨[4], np_repeat padding.data 4, by simp [np_repeat_length, padding.coh, h1]⟩
  else if h2 : padding.shape.prod = 2 then
    .ok ⟨[4], np_tile padding.data 2, by simp [np_tile_length, padding.coh, h2]⟩
  else
    .ok padding

/-- C10: `normalise_padding_size` raises `ValueError` exactly when its input
has more than one dimension or has size exactly 3; a size-1 input returns
that value repeated 4 times, a size-2 input the pair tiled to length 4, and
every other 1-dimensional input (size 4, but also e.g. length 5) is returned
unchanged, so the result is not always of length 4. -/
theorem C10_normalise_padding_size (p : NpPadding) :
    ((∃ e, normalise_padding_size p = .error e) ↔
      (1 < p.shape.length ∨ p.shape.prod = 3))
    ∧ (p.shape.length ≤ 1 → p.shape.prod = 1 →
        ∃ r, normalise_padding_size p = .ok r ∧ r.shape = [4] ∧
          ∀ v, p.data = [v] → r.data = [v, v, v, v])
    ∧ (p.shape.length ≤ 1 → p.shape.prod = 2 →
        ∃ r, normalise_padding_size p = .ok r ∧ r.shape = [4] ∧
          r.data = p.data ++ p.data)
    ∧ (p.shape.length ≤ 1 → p.shape.prod ≠ 1 → p.shape.prod ≠ 2 → p.shape.prod ≠ 3 →
        normalise_padding_size p = .ok p)
    ∧ normalise_padding_size (vec1 [1, 2, 3, 4, 5]) = .ok (vec1 [1, 2, 3, 4, 5]) := by
  refine ⟨⟨?_, ?_⟩, ?_, ?_, ?_, ?_⟩
  · intro ⟨e, he⟩
    by_contra hcon
    push_neg at hcon
    obtain ⟨hl, hp⟩ := hcon
    unfold normalise_padding_size at he
    split_ifs at he
    omega
  · intro h
    unfold normalise_padding_size
    rcases h with h | h
    · exact ⟨_, by rw [if_pos h]⟩
    · by_cases hl : 1 < p.shape.length
      · exact ⟨_, by rw [if_pos hl]⟩
      · exact ⟨_, by rw [if_neg hl, if_pos h]⟩
  · intro hl h1
    unfold normalise_padding_size
    rw [if_neg (by omega), if_neg (by omega), dif_pos h1]
    refine ⟨_, rfl, rfl, ?_⟩
    intro v hv
    simp [hv, np_repeat, List.replicate]
  · intro hl h2
    unfold normalise_padding_size
    rw [if_neg (by omega), if_neg (by omega), dif_neg (by omega), dif_pos h2]
    exact ⟨_, rfl, rfl, by simp [np_tile]⟩
  · intro hl h1 h2 h3
    unfold normalise_padding_size
    rw [if_neg (by omega), if_neg h3, dif_neg h1, dif_neg h2]
  · rfl

/-- C10 witness: a length-2 padding is tiled to length 4. -/
theorem C10_normalise_padding_size_witness :
    ∃ r, normalise_padding_size (vec1 [7, 9]) = .ok r ∧ r.shape = [4] ∧
      r.data = (vec1 [7, 9]).data ++ (vec1 [7, 9]).data :=
  (C10_normalise_padding_size (vec1 [7, 9])).2.2.1 (by decide) (by decide)

/-- An RGB image shape is acceptable for feature extraction when it is
3-dimensional with exactly 3 channels (spec section 4.3). -/
def rgbOk (i : RgbImg) : Prop :=
  i.shape.length = 3 ∧ i.shape.getD 2 0 = 3

instance (i : RgbImg) : Decidable (rgbOk i) := by
  unfold rgbOk; infer_instance

/-- C7: whenever either input image does not have exactly 3 channels or the
two shapes differ, `extract_features` fails with InvalidImageFormat — for
every network, so the forward pass is never run on such inputs. -/
theorem C7_extract_features_checks (fixed moving : RgbImg)
    (h : ¬ (rgbOk fixed ∧ rgbOk moving ∧ fixed.shape = moving.shape)) :
    ∀ net, extract_features net fixed moving = .error .invalidImageFormat := by
  intro net
  unfold extract_features
  by_cases h1 : fixed.shape.length ≠ 3 ∨ moving.shape.length ≠ 3
  · rw [if_pos h1]
  · push_neg at h1
    rw [if_neg (by push_neg; exact h1)]
    by_cases h2 : fixed.shape.getD 2 0 ≠ 3 ∨ moving.shape.getD 2 0 ≠ 3
    · rw [if_pos h2]
    · push_neg at h2
      rw [if_neg (by push_neg; exact h2)]
      by_cases h3 : fixed.shape ≠ moving.shape
      · rw [if_pos h3]
      · push_neg at h3
        exact absurd ⟨⟨h1.1, h2.1⟩, ⟨h1.2, h2.2⟩, h3⟩ h

/-- C7 witness: a 2-dimensional image pair is rejected whatever the network
is. -/
theorem C7_extract_features_checks_witness :
    extract_features (fun _ => ([] : Pyramid)) ⟨[2, 2], []⟩ ⟨[2, 2], []⟩
      = .error .invalidImageFormat :=
  C7_extract_features_checks ⟨[2, 2], []⟩ ⟨[2, 2], []⟩ (by decide) _

/-- C6: `feature_mapping` fails with FeatureStageMismatch for every pyramid
whose stage count differs from 3. -/
theorem C6_feature_stage_mismatch (p : Pyramid) (h : p.length ≠ 3) :
    feature_mapping p = .error .featureStageMismatch := by
  unfold feature_mapping
  rw [if_neg h]

/-- C6 witness: a pyramid with only 2 stages is rejected. -/
theorem C6_feature_stage_mismatch_witness :
    feature_mapping [defaultStage, defaultStage] = .error .featureStageMismatch :=
  C6_feature_stage_mismatch [defaultStage, defaultStage] (by decide)

/-- C3: on inputs passing the grayscale and mask-shape checks, an
out-of-range `dice_overlap` or `rotation_step` makes `prealignment` fail
with InvalidParameter (before any rotation search). -/
theorem C3_prealignment_invalid_parameter (fixed_img moving_img : GrayImg)
    (fixed_mask moving_mask : BinMask) (dice_overlap rotation_step : ℚ)
    (hgray : fixed_img.shape.length = 2 ∧ moving_img.shape.length = 2)
    (hshape : fixed_mask.shape = fixed_img.shape ∧ moving_mask.shape = moving_img.shape)
    (hbad : ¬ (0 < dice_overlap ∧ dice_overlap ≤ 1) ∨
      ¬ (10 ≤ rotation_step ∧ rotation_step ≤ 20)) :
    prealignment fixed_img moving_img fixed_mask moving_mask dice_overlap rotation_step
      = .error .invalidParameter := by
  unfold prealignment
  rw [if_neg (by simp [hgray.1, hgray.2]), if_neg (by simp [hshape.1, hshape.2])]
  rcases hbad with hb | hb
  · rw [if_pos hb]
  · by_cases hd : ¬ (0 < dice_overlap ∧ dice_overlap ≤ 1)
    · rw [if_pos hd]
    · rw [if_neg hd, if_pos hb]

/-- C3 witness: `dice_overlap = 2` is rejected with InvalidParameter. -/
theorem C3_prealignment_invalid_parameter_witness :
    prealignment ⟨[2, 2], [0, 0, 0, 0]⟩ ⟨[2, 2], [0, 0, 0, 0]⟩
      ⟨[2, 2], {((0 : ℤ), (0 : ℤ))}⟩ ⟨[2, 2], {((0 : ℤ), (0 : ℤ))}⟩ 2 10
      = .error .invalidParameter :=
  C3_prealignment_invalid_parameter _ _ _ _ 2 10 (by decide) (by decide)
    (Or.inl (by norm_num))

/-- C5: equal-length point sequences without three non-collinear moving
points are rejected by the affine estimator with
InsufficientCorrespondences. -/
theorem C5_insufficient_correspondences (fixed_points moving_points : List (ℚ × ℚ))
    (hlen : fixed_points.length = moving_points.length)
    (hcol : hasThreeNonCollinear moving_points = false) :
    estimate_affine_transform fixed_points moving_points
      = .error .insufficientCorrespondences := by
  simp only [estimate_affine_transform]
  have hz : (fixed_points.zip moving_points).map Prod.snd = moving_points :=
    List.map_snd_zip _ _ (by omega)
  rw [hz, hcol]
  simp

/-- C5 witness: two collinear point pairs are rejected. -/
theorem C5_insufficient_correspondences_witness :
    estimate_affine_transform [(0, 0), (1, 1)] [(0, 0), (2, 2)]
      = .error .insufficientCorrespondences :=
  C5_insufficient_correspondences [(0, 0), (1, 1)] [(0, 0), (2, 2)] (by decide)
    (by simp [hasThreeNonCollinear, cross2])

/-- C8: the Dice coefficient of a non-empty mask with itself under the
identity transform is exactly 1. -/
theorem C8_dice_identity (M : Finset (ℤ × ℤ)) (h : M.Nonempty) :
    diceCoeff (warpMask Mat3.id M) M = 1 := by
  have hw : warpMask Mat3.id M = M := by
    unfold warpMask
    have hfun : ∀ p ∈ M,
        ((round (applyMat Mat3.id p).1 : ℤ), (round (applyMat Mat3.id p).2 : ℤ)) = id p := by
      intro p hp
      simp [applyMat, Mat3.id]
    rw [Finset.image_congr hfun, Finset.image_id]
  unfold diceCoeff
  rw [hw, Finset.inter_self]
  have hc : (0 : ℚ) < (M.card : ℚ) := by exact_mod_cast h.card_pos
  have h2 : (M.card : ℚ) + (M.card : ℚ) ≠ 0 := by positivity
  field_simp
  ring

/-- C8 witness: a singleton mask has Dice score 1 against itself under the
identity. -/
theorem C8_dice_identity_witness :
    diceCoeff (warpMask Mat3.id {((0 : ℤ), (0 : ℤ))}) {((0 : ℤ), (0 : ℤ))} = 1 :=
  C8_dice_identity {((0 : ℤ), (0 : ℤ))} ⟨(0, 0), by decide⟩

/-- The scored fold of `bestOf` preserves any property satisfied by the
start candidate and all list elements. -/
theorem bestOf_foldl_preserve (P : ℚ × Mat3 → Prop) (l : List (ℚ × Mat3)) :
    ∀ b : ℚ × Mat3, P b → (∀ y ∈ l, P y) →
      P (l.foldl (fun b y => if b.1 < y.1 then y else b) b) := by
  induction l with
  | nil => intro b hb _; exact hb
  | cons y ys ih =>
    intro b hb hys
    simp only [List.foldl_cons]
    apply ih
    · by_cases hc : b.1 < y.1
      · simp only [if_pos hc]; exact hys y (List.mem_cons_self y ys)
      · simp only [if_neg hc]; exact hb
    · intro z hz; exact hys z (List.mem_cons_of_mem y hz)

/-- `bestOf` preserves any property satisfied by the identity default and by
all list elements. -/
theorem bestOf_preserve (P : ℚ × Mat3 → Prop) (hid : P (0, Mat3.id))
    (l : List (ℚ × Mat3)) (hl : ∀ x ∈ l, P x) : P (bestOf l) := by
  match l with
  | [] => exact hid
  | x :: xs =>
    exact bestOf_foldl_preserve P xs x (hl x (List.mem_cons_self x xs))
      (fun y hy => hl y (List.mem_cons_of_mem x hy))

/-- Every candidate of the prealignment rotation search has bottom
row (0, 0, 1). -/
theorem scoredList_bottomRow (fmask mmask : BinMask) (s : ℚ) :
    ∀ x ∈ scoredList fmask mmask s, x.2.bottomRow = (0, 0, 1) := by
  intro x hx
  simp only [scoredList, List.mem_map] at hx
  obtain ⟨θ, -, rfl⟩ := hx
  simp [candTransform, Mat3.mul, rotAbout, transMat, Mat3.bottomRow]

/-- The transform retained by the prealignment search has bottom
row (0, 0, 1). -/
theorem prealignSearch_bottomRow (fmask mmask : BinMask) (s : ℚ) :
    ((prealignSearch fmask mmask s).2).bottomRow = (0, 0, 1) := by
  unfold prealignSearch
  exact bestOf_preserve (fun x => x.2.bottomRow = (0, 0, 1))
    (by simp [Mat3.id, Mat3.bottomRow]) _ (scoredList_bottomRow fmask mmask s)

/-- C1: every transform produced by any stage of the pipeline — the
prealignment transform, the affine-estimation transform, and the composed
final registration transform — has bottom row exactly (0, 0, 1). -/
theorem C1_bottom_row :
    (∀ fixed_img moving_img fixed_mask moving_mask dice_overlap rotation_step T w,
       prealignment fixed_img moving_img fixed_mask moving_mask dice_overlap rotation_step
         = .ok (T, w) → T.bottomRow = (0, 0, 1))
    ∧ (∀ fixed_points moving_points T,
       estimate_affine_transform fixed_points moving_points = .ok T →
         T.bottomRow = (0, 0, 1))
    ∧ (∀ refine coarse : Mat3, refine.bottomRow = (0, 0, 1) →
       coarse.bottomRow = (0, 0, 1) →
         (final_transform refine coarse).bottomRow = (0, 0, 1)) := by
  refine ⟨?_, ?_, ?_⟩
  · intro fi mi fm mm d s T w h
    simp only [prealignment] at h
    split_ifs at h
    have hT := congrArg Prod.fst (Except.ok.inj h)
    simp only at hT
    rw [← hT]
    exact prealignSearch_bottomRow fm mm s
  · intro p0 p1 T h
    simp only [estimate_affine_transform] at h
    split_ifs at h
    rw [← Except.ok.inj h]
    simp [affineToMat, Mat3.bottomRow]
  · intro A B hA hB
    exact Mat3.bottomRow_mul A B hA hB

/-- A concrete 3x3 grayscale image used by the prealignment witnesses. -/
def wImg : GrayImg := ⟨[3, 3], List.replicate 9 0⟩

/-- A concrete fixed mask with two foreground points, centroid (1, 0). -/
def wFMask : BinMask := ⟨[3, 3], {((0 : ℤ), (0 : ℤ)), ((2 : ℤ), (0 : ℤ))}⟩

/-- A concrete moving mask with one foreground point at the origin. -/
def wMMask : BinMask := ⟨[3, 3], {((0 : ℤ), (0 : ℤ))}⟩

theorem wFMask_centroid : maskCentroid wFMask.fg = (1, 0) := by
  have hc : (wFMask.fg).card = 2 := by decide
  have hs1 : Finset.sum wFMask.fg (fun p => (p.1 : ℚ)) = 2 := by
    rw [show wFMask.fg = insert ((0 : ℤ), (0 : ℤ)) {((2 : ℤ), (0 : ℤ))} from rfl]
    rw [Finset.sum_insert (by decide), Finset.sum_singleton]
    norm_num
  have hs2 : Finset.sum wFMask.fg (fun p => (p.2 : ℚ)) = 0 := by
    rw [show wFMask.fg = insert ((0 : ℤ), (0 : ℤ)) {((2 : ℤ), (0 : ℤ))} from rfl]
    rw [Finset.sum_insert (by decide), Finset.sum_singleton]
    norm_num
  rw [maskCentroid, hc, hs1, hs2]
  norm_num

theorem wMMask_centroid : maskCentroid wMMask.fg = (0, 0) := by
  have hc : (wMMask.fg).card = 1 := by decide
  have hs1 : Finset.sum wMMask.fg (fun p => (p.1 : ℚ)) = 0 := by
    rw [show wMMask.fg = {((0 : ℤ), (0 : ℤ))} from rfl, Finset.sum_singleton]
    norm_num
  have hs2 : Finset.sum wMMask.fg (fun p => (p.2 : ℚ)) = 0 := by
    rw [show wMMask.fg = {((0 : ℤ), (0 : ℤ))} from rfl, Finset.sum_singleton]
    norm_num
  rw [maskCentroid, hc, hs1, hs2]
  norm_num

/-- On the witness masks every candidate transform maps the translated
moving point exactly onto the shared centroid (1, 0), whatever the angle. -/
theorem warp_wMMask (θ : ℚ) :
    warpMask (candTransform (1, 0) (1, 0) θ) wMMask.fg = {((1 : ℤ), (0 : ℤ))} := by
  have hx : (applyMat (candTransform (1, 0) (1, 0) θ) (0, 0)).1 = 1 := by
    simp [applyMat, candTransform, Mat3.mul, rotAbout, transMat]
  have hy : (applyMat (candTransform (1, 0) (1, 0) θ) (0, 0)).2 = 0 := by
    simp [applyMat, candTransform, Mat3.mul, rotAbout, transMat]
  unfold warpMask
  rw [show wMMask.fg = {((0 : ℤ), (0 : ℤ))} from rfl, Finset.image_singleton]
  rw [hx, hy]
  norm_num

theorem dice_wFMask : diceCoeff wFMask.fg {((1 : ℤ), (0 : ℤ))} = 0 := by
  have hcap : (wFMask.fg ∩ {((1 : ℤ), (0 : ℤ))}).card = 0 := by decide
  simp [diceCoeff, hcap]

/-- Every candidate score of the witness search is 0. -/
theorem scored_wlist :
    scoredList wFMask wMMask 10
      = (angleGrid 10).map (fun θ => (0, candTransform (1, 0) (1, 0) θ)) := by
  simp only [scoredList, wFMask_centroid, wMMask_centroid]
  norm_num
  intro θ hθ
  rw [warp_wMMask θ, dice_wFMask]

/-- The retained score of a search whose candidates all score 0 is 0. -/
theorem bestOf_fst_zero (l : List (ℚ × Mat3)) (h : ∀ x ∈ l, x.1 = 0) :
    (bestOf l).1 = 0 :=
  bestOf_preserve (fun x => x.1 = 0) rfl l h

theorem search_w_fst : (prealignSearch wFMask wMMask 10).1 = 0 := by
  unfold prealignSearch
  rw [scored_wlist]
  apply bestOf_fst_zero
  intro x hx
  simp only [List.mem_map] at hx
  obtain ⟨θ, -, rfl⟩ := hx
  rfl

/-- C4: on inputs passing every check, a best Dice score below the requested
`dice_overlap` never aborts prealignment: the call still succeeds with the
best transform found, and the non-fatal warning flag is set. -/
theorem C4_dice_shortfall_warns (fixed_img moving_img : GrayImg)
    (fixed_mask moving_mask : BinMask) (dice_overlap rotation_step : ℚ)
    (hgray : fixed_img.shape.length = 2 ∧ moving_img.shape.length = 2)
    (hshape : fixed_mask.shape = fixed_img.shape ∧ moving_mask.shape = moving_img.shape)
    (hd : 0 < dice_overlap ∧ dice_overlap ≤ 1)
    (hr : 10 ≤ rotation_step ∧ rotation_step ≤ 20)
    (hfg : fixed_mask.fg ≠ ∅ ∧ moving_mask.fg ≠ ∅)
    (hshort : (prealignSearch fixed_mask moving_mask rotation_step).1 < dice_overlap) :
    prealignment fixed_img moving_img fixed_mask moving_mask dice_overlap rotation_step
      = .ok ((prealignSearch fixed_mask moving_mask rotation_step).2, true) := by
  simp only [prealignment]
  rw [if_neg (by simp [hgray.1, hgray.2]), if_neg (by simp [hshape.1, hshape.2]),
    if_neg (not_not_intro hd), if_neg (not_not_intro hr),
    if_neg (by simp [hfg.1, hfg.2])]
  rw [decide_eq_true hshort]

/-- C4 witness: on a concrete misaligned pair whose best Dice score is 0,
requesting `dice_overlap = 9/10` yields the warning flag and the best
transform rather than an error. -/
theorem C4_dice_shortfall_warns_witness :
    prealignment wImg wImg wFMask wMMask (9 / 10 : ℚ) 10
      = .ok ((prealignSearch wFMask wMMask 10).2, true) :=
  C4_dice_shortfall_warns wImg wImg wFMask wMMask (9 / 10) 10
    (by decide) (by decide) (by norm_num) (by norm_num) (by decide)
    (by rw [search_w_fst]; norm_num)

/-- The prealignment call on the witness inputs reaches the search branch. -/
theorem preal_eval :
    prealignment wImg wImg wFMask wMMask (9 / 10 : ℚ) 10
      = .ok ((prealignSearch wFMask wMMask 10).2,
          decide ((prealignSearch wFMask wMMask 10).1 < (9 / 10 : ℚ))) := by
  simp only [prealignment]
  rw [if_neg (by decide), if_neg (by decide), if_neg (by norm_num),
    if_neg (by norm_num), if_neg (by decide)]

/-- Three non-collinear witness points for the affine estimator. -/
def wPts : List (ℚ × ℚ) := [(0, 0), (1, 0), (0, 1)]

/-- The affine estimator accepts the witness points. -/
theorem estim_eval :
    estimate_affine_transform wPts wPts = .ok (affineToMat (fitAffine (wPts.zip wPts))) := by
  simp only [estimate_affine_transform]
  rw [if_pos]
  simp [wPts, hasThreeNonCollinear, cross2]

/-- C1 witness: concrete transforms from the prealignment stage and the
affine-estimation stage, and their composition, all have bottom
row (0, 0, 1). -/
theorem C1_bottom_row_witness :
    ((prealignSearch wFMask wMMask 10).2).bottomRow = (0, 0, 1)
    ∧ (affineToMat (fitAffine (wPts.zip wPts))).bottomRow = (0, 0, 1)
    ∧ (final_transform (prealignSearch wFMask wMMask 10).2
        (affineToMat (fitAffine (wPts.zip wPts)))).bottomRow = (0, 0, 1) := by
  have h1 := C1_bottom_row.1 wImg wImg wFMask wMMask (9 / 10) 10 _ _ preal_eval
  have h2 := C1_bottom_row.2.1 wPts wPts _ estim_eval
  exact ⟨h1, h2, C1_bottom_row.2.2 _ _ h1 h2⟩

theorem cumCount_mono (l : List ℕ) {j i : ℕ} (h : j ≤ i) :
    cumCount l j ≤ cumCount l i := by
  induction l with
  | nil => simp [cumCount]
  | cons x t ih =>
    simp only [cumCount, List.countP_cons, decide_eq_true_eq] at ih ⊢
    split_ifs with h1 h2 <;> omega

theorem cumCount_strict (l : List ℕ) {j i : ℕ} (hj : j < i) (hi : i ∈ l) :
    cumCount l j < cumCount l i := by
  induction l with
  | nil => simp at hi
  | cons x t ih =>
    have hmono := cumCount_mono t (le_of_lt hj)
    simp only [cumCount, List.countP_cons, decide_eq_true_eq] at ih hmono ⊢
    rcases List.mem_cons.mp hi with rfl | hmem
    · split_ifs with h1 h2 <;> omega
    · have := ih hmem
      split_ifs with h1 h2 <;> omega

theorem cdfAt_strict (l : List ℕ) {j i : ℕ} (hj : j < i) (hi : i ∈ l) :
    cdfAt l j < cdfAt l i := by
  have hlen : 0 < l.length := List.length_pos.mpr (List.ne_nil_of_mem hi)
  have hcount := cumCount_strict l hj hi
  have hc : (0 : ℚ) < (l.length : ℚ) := by exact_mod_cast hlen
  unfold cdfAt
  apply div_lt_div_of_pos_right _ hc
  exact_mod_cast hcount

theorem pickMin_of_min (f : ℕ → ℚ) (b : ℕ) (l : List ℕ) :
    (∀ j ∈ l, f b ≤ f j) → pickMin f b l = b := by
  induction l with
  | nil => intro _; rfl
  | cons j rest ih =>
    intro h
    simp only [pickMin]
    rw [if_neg (not_lt.mpr (h j (List.mem_cons_self j rest)))]
    exact ih (fun x hx => h x (List.mem_cons_of_mem j hx))

theorem pickMin_eq (f : ℕ → ℚ) (v : ℕ) (hpost : ∀ j, f v ≤ f j) :
    ∀ (pre : List ℕ) (b : ℕ), (∀ j ∈ pre, f v < f j) → f v < f b →
      ∀ post : List ℕ, pickMin f b (pre ++ v :: post) = v := by
  intro pre
  induction pre with
  | nil =>
    intro b hpre hb post
    simp only [List.nil_append, pickMin]
    rw [if_pos hb]
    exact pickMin_of_min f v post (fun j _ => hpost j)
  | cons x pre ih =>
    intro b hpre hb post
    simp only [List.cons_append, pickMin]
    by_cases hc : f x < f b
    · rw [if_pos hc]
      exact ih x (fun j hj => hpre j (List.mem_cons_of_mem x hj))
        (hpre x (List.mem_cons_self x pre)) post
    · rw [if_neg hc]
      exact ih b (fun j hj => hpre j (List.mem_cons_of_mem x hj)) hb post

/-- The histogram-matching lookup table of an image against itself fixes
every intensity present in the image: the exact cumulative match with the
smallest intensity is the intensity itself. -/
theorem tableEntry_self (a : List ℕ) (i : ℕ) (hi : i ∈ a) (h256 : i < 256) :
    tableEntry a a i = i := by
  unfold tableEntry
  set f : ℕ → ℚ := fun j => |cdfAt a j - cdfAt a i| with hf
  have hfi : f i = 0 := by simp [hf]
  have hpost : ∀ j, f i ≤ f j := by
    intro j
    rw [hfi]
    exact abs_nonneg _
  have hpre : ∀ j, j < i → f i < f j := by
    intro j hj
    rw [hfi]
    have hlt := cdfAt_strict a hj hi
    have hne : cdfAt a j - cdfAt a i ≠ 0 := sub_ne_zero.mpr (ne_of_lt hlt)
    simpa [hf] using abs_pos.mpr hne
  rcases Nat.eq_zero_or_pos i with rfl | hpos
  · exact pickMin_of_min f 0 (List.range 256) (fun j _ => hpost j)
  · have h1 : i + (256 - i) = 256 := by omega
    have h2 : 256 - i = (255 - i) + 1 := by omega
    have hsplit : List.range 256 = List.range i ++ i ::
        ((List.range (255 - i)).map (fun d => i + (d + 1))) := by
      calc List.range 256 = List.range (i + (256 - i)) := by rw [h1]
        _ = List.range i ++ (List.range (256 - i)).map (fun x => i + x) :=
            List.range_add i (256 - i)
        _ = List.range i ++ (0 :: (List.range (255 - i)).map Nat.succ).map (fun x => i + x) := by
            rw [h2, List.range_succ_eq_map]
        _ = List.range i ++ i :: ((List.range (255 - i)).map (fun d => i + (d + 1))) := by
            simp [List.map_map, Function.comp, Nat.succ_eq_add_one]
    rw [hsplit]
    exact pickMin_eq f i hpost (List.range i) 0
      (fun j hj => hpre j (List.mem_range.mp hj)) (hpre 0 hpos) _

/-- C2: histogram matching is idempotent and leaves the reference untouched —
matching an 8-bit grayscale image to itself (no smoothing kernel) returns it
unchanged, and for every grayscale pair and kernel the second returned image
is the unmodified input. -/
theorem C2_match_histograms (a b : GrayImg) (kernel : Option ℕ)
    (ha : grayOk a.shape) (hb : grayOk b.shape)
    (h8 : ∀ v ∈ a.data, v < 256) :
    match_histograms a a none = .ok (a, a)
    ∧ ∃ a2, match_histograms a b kernel = .ok (a2, b) := by
  constructor
  · unfold match_histograms
    rw [if_pos ⟨ha, ha⟩]
    have hmap : a.data.map (smoothTable none (tableEntry a.data a.data)) = a.data := by
      simp only [smoothTable]
      have hid : ∀ v ∈ a.data, tableEntry a.data a.data v = id v :=
        fun v hv => tableEntry_self a.data v hv (h8 v hv)
      rw [List.map_congr_left hid, List.map_id]
    simp only [hmap]
  · unfold match_histograms
    rw [if_pos ⟨ha, hb⟩]
    exact ⟨_, rfl⟩

/-- C2 witness: a concrete one-pixel image is returned unchanged when matched
to itself, and the reference is returned unmodified. -/
theorem C2_match_histograms_witness :
    match_histograms ⟨[1, 1], [0]⟩ ⟨[1, 1], [0]⟩ none
      = .ok (⟨[1, 1], [0]⟩, ⟨[1, 1], [0]⟩)
    ∧ ∃ a2, match_histograms ⟨[1, 1], [0]⟩ ⟨[1, 1], [0]⟩ none
      = .ok (a2, ⟨[1, 1], [0]⟩) :=
  C2_match_histograms ⟨[1, 1], [0]⟩ ⟨[1, 1], [0]⟩ none
    (by decide) (by decide) (by decide)

/-- First-minimum selection only depends on the strict comparison order of
the candidate values. -/
theorem pickMin_congr {α β : Type} [LinearOrder α] [LinearOrder β]
    (f : ℕ → α) (g : ℕ → β) (h : ∀ j k, f j < f k ↔ g j < g k) :
    ∀ (b : ℕ) (l : List ℕ), pickMin f b l = pickMin g b l := by
  intro b l
  induction l generalizing b with
  | nil => rfl
  | cons j rest ih =>
    simp only [pickMin]
    by_cases hc : f j < f b
    · rw [if_pos hc, if_pos ((h j b).mp hc)]
      exact ih j
    · rw [if_neg hc, if_neg (fun hg => hc ((h j b).mpr hg))]
      exact ih b

/-- The lookup-table entry computed with exact integer arithmetic: the
cumulative difference is scaled by both image sizes, which preserves the
nearest-match ordering. -/
def tableEntryInt (a b : List ℕ) (i : ℕ) : ℕ :=
  pickMin (fun j => |(cumCount b j * a.length : ℤ) - (cumCount a i * b.length : ℤ)|)
    0 (List.range 256)

/-- On non-empty images the rational and the integer lookup tables agree. -/
theorem tableEntry_eq_int (a b : List ℕ) (ha : a ≠ []) (hb : b ≠ []) (i : ℕ) :
    tableEntry a b i = tableEntryInt a b i := by
  have hNa : (0 : ℚ) < (a.length : ℚ) := by
    exact_mod_cast List.length_pos.mpr ha
  have hNb : (0 : ℚ) < (b.length : ℚ) := by
    exact_mod_cast List.length_pos.mpr hb
  unfold tableEntry tableEntryInt
  apply pickMin_congr
  intro j k
  have key : ∀ m : ℕ, |cdfAt b m - cdfAt a i|
      = ((|(cumCount b m * a.length : ℤ) - (cumCount a i * b.length : ℤ)| : ℤ) : ℚ)
        / ((b.length : ℚ) * (a.length : ℚ)) := by
    intro m
    unfold cdfAt
    rw [div_sub_div _ _ (ne_of_gt hNb) (ne_of_gt hNa), abs_div,
      abs_of_pos (mul_pos hNb hNa)]
    congr 1
    push_cast
    ring_nf
  rw [key j, key k, div_lt_div_iff_of_pos_right (mul_pos hNb hNa)]
  exact Int.cast_lt
